import Mathlib

/-!
Shallow embedding of the TeraWeB server core (src/index.js):
the `/watch/:filename` range-streaming responder and the retention
scheduler (one-shot 24h deletion and hourly sweep).

Paths are modelled as lists of segments.  The File Store (the
`downloads` directory) is an association list from path to stored file
(content bytes plus mtime in milliseconds).  JavaScript strings are
handled through their character lists, with faithful models of the
string operations the source uses (`String.prototype.replace` with a
literal pattern, `split('-')`, `parseInt(s, 10)`).
-/

namespace TeraWeB

/-- A filesystem path, as its list of segments. -/
abbrev FsPath := List String

/-- A stored file: its content bytes and its mtime in milliseconds
(`stats.mtimeMs`). -/
structure StoredFile where
  content : List Nat
  mtimeMs : Int
deriving DecidableEq, Repr

/-- The File Store: the `downloads` directory, an association list from
path to stored file. -/
abbrev Store := List (FsPath × StoredFile)

/-- Look a path up in the store (`fs.existsSync` / `fs.statSync` /
`fs.createReadStream` all address files this way). -/
def lookupPath (p : FsPath) : Store → Option StoredFile
  | [] => none
  | e :: rest => if e.1 = p then some e.2 else lookupPath p rest

/-! ## JavaScript string helpers used by the range branch -/

/-- Remove the first occurrence of `pat` from `l`: the model of
JavaScript `str.replace(/bytes=/, '')` (a literal regex without the `g`
flag replaces only the first match). -/
def removeFirst (pat : List Char) : List Char → List Char
  | [] => []
  | c :: rest =>
    if pat.isPrefixOf (c :: rest) then (c :: rest).drop pat.length
    else c :: removeFirst pat rest

/-- JavaScript `str.split(sep)` for a single-character separator. -/
def splitOnChar (sep : Char) : List Char → List (List Char)
  | [] => [[]]
  | c :: rest =>
    match splitOnChar sep rest with
    | [] => [[c]]
    | h :: t => if c = sep then [] :: h :: t else (c :: h) :: t

/-- Value of a maximal leading run of decimal digits; `none` when there
is no leading digit (JavaScript `NaN`). -/
def digitsVal (l : List Char) : Option Nat :=
  let ds := l.takeWhile Char.isDigit
  if ds.isEmpty then none
  else some (ds.foldl (fun acc c => 10 * acc + (c.toNat - 48)) 0)

/-- JavaScript `parseInt(s, 10)`: skip leading whitespace, read an
optional sign and then a maximal run of decimal digits; `none` models
`NaN`. -/
def jsParseInt (l : List Char) : Option Int :=
  let l := l.dropWhile (fun c => c = ' ' ∨ c = '\t' ∨ c = '\n' ∨ c = '\r')
  match l with
  | '-' :: rest => (digitsVal rest).map (fun n => -(n : Int))
  | '+' :: rest => (digitsVal rest).map (fun n => (n : Int))
  | rest => (digitsVal rest).map (fun n => (n : Int))

/-! ## Path joining (`path.join`) -/

/-- Split a filename on `/`, yielding its segments (an Express route
param can contain `/` via percent-encoding, e.g. `..%2Fsecret`). -/
def splitSlash (s : String) : List String :=
  (splitOnChar '/' s.toList).map List.asString

/-- Node `path.normalize` on an absolute path's segment list: drop empty
and `.` segments, resolve `..` against the accumulated result. -/
def normalizeSegs (segs : List String) : List String :=
  segs.foldl
    (fun acc s =>
      if s = "" ∨ s = "." then acc
      else if s = ".." then acc.dropLast
      else acc ++ [s])
    []

/-- Node `path.join(downloadsDir, filename)`: concatenate and
normalize.  `root` is the (absolute, already normalized) segment list of
the downloads directory. -/
def pathJoin (root : FsPath) (filename : String) : FsPath :=
  normalizeSegs (root ++ splitSlash filename)

/-- Whether `p` lies strictly inside the directory `root`. -/
def strictlyInside (root p : FsPath) : Bool :=
  root.isPrefixOf p && !(decide (p = root))

/-! ## The `/watch/:filename` responder -/

/-- An HTTP response body: a plain-text body (`res.send`) or streamed
file bytes (`stream.pipe(res)`). -/
inductive ResponseBody
  | text (s : String)
  | bytes (b : List Nat)
deriving DecidableEq, Repr

/-- The parts of an HTTP response the spec talks about.  `contentRange`
holds the `(start, end, fileSize)` triple rendered on the wire as
`bytes start-end/fileSize`. -/
structure HttpResponse where
  status : Nat
  contentLength : Option Int := none
  contentRange : Option (Int × Int × Int) := none
  acceptRanges : Option String := none
  contentType : Option String := none
  body : ResponseBody
deriving DecidableEq, Repr

/-- Node `fs.createReadStream(filePath, opts)` with start/end options:
validation throws `ERR_OUT_OF_RANGE` when `start` or `end` is `NaN` or
negative or `start > end`; otherwise the stream yields the bytes from
`start` through `min(end, size-1)` inclusive (reads stop at EOF). -/
def createReadStreamRange (content : List Nat) :
    Option Int → Option Int → Except String (List Nat)
  | some a, some b =>
    if a < 0 then .error "ERR_OUT_OF_RANGE: start"
    else if b < 0 then .error "ERR_OUT_OF_RANGE: end"
    else if b < a then .error "ERR_OUT_OF_RANGE: start must be <= end"
    else .ok ((content.drop a.toNat).take (b - a + 1).toNat)
  | none, _ => .error "ERR_OUT_OF_RANGE: start is NaN"
  | _, none => .error "ERR_OUT_OF_RANGE: end is NaN"

/-- The range branch of the `/watch/:filename` handler (src/index.js
lines 134-147): strip `bytes=`, split on `-`, `parseInt` the start,
`parseInt` the end when the piece after `-` is a truthy (non-empty)
string and otherwise use `fileSize - 1`, then open a read stream and
answer 206.  A thrown stream-constructor error propagates out of the
handler (`Except.error`). -/
def watchRangeBranch (content : List Nat) (fileSize : Int)
    (range : String) : Except String HttpResponse :=
  let parts := splitOnChar '-' (removeFirst "bytes=".toList range.toList)
  let start := jsParseInt (parts.headD [])
  let stop :=
    match parts.get? 1 with
    | some s => if s.isEmpty then some (fileSize - 1) else jsParseInt s
    | none => some (fileSize - 1)
  match createReadStreamRange content start stop with
  | .error e => .error e
  | .ok streamed =>
    -- start and stop are `some` here, otherwise the stream constructor threw
    let a := (start.getD 0)
    let b := (stop.getD 0)
    .ok
      { status := 206
        contentRange := some (a, b, fileSize)
        acceptRanges := some "bytes"
        contentLength := some (b - a + 1)
        contentType := some "video/mp4"
        body := .bytes streamed }

/-- The `/watch/:filename` handler (src/index.js lines 121-156): join
the filename onto the downloads directory, 404 when the file does not
exist, otherwise stat it and serve either the requested byte range or
the whole file.  The handler performs no writes, so the store it
returns is the store it was given. -/
def watchHandler (store : Store) (root : FsPath) (filename : String)
    (rangeHeader : Option String) : Except String HttpResponse × Store :=
  let filePath := pathJoin root filename
  match lookupPath filePath store with
  | none => (.ok { status := 404, body := .text "Video not found" }, store)
  | some f =>
    let fileSize : Int := f.content.length
    match rangeHeader with
    | some range => (watchRangeBranch f.content fileSize range, store)
    | none =>
      (.ok
        { status := 200
          contentLength := some fileSize
          contentType := some "video/mp4"
          body := .bytes f.content }, store)

/-- Express dispatch: a synchronous throw inside a route handler is
caught by Express and handed to the default error handler, which
answers 500 Internal Server Error. -/
def expressWatch (store : Store) (root : FsPath) (filename : String)
    (rangeHeader : Option String) : HttpResponse × Store :=
  match watchHandler store root filename rangeHeader with
  | (.ok r, s) => (r, s)
  | (.error _, s) => ({ status := 500, body := .text "Internal Server Error" }, s)

/-! ## Retention scheduler (one-shot deletion and hourly sweep) -/

/-- The retention TTL: 24 hours in milliseconds (`24 * 60 * 60 * 1000`). -/
def ttlMs : Int := 24 * 60 * 60 * 1000

/-- The sweep cadence: one hour in milliseconds. -/
def hourMs : Int := 60 * 60 * 1000

/-- Node `path.basename`: the last segment of a path. -/
def basename (p : FsPath) : String := p.getLastD ""

/-- Result of a raw `fs.unlink` call. -/
inductive FsResult
  | ok
  | enoent
deriving DecidableEq, Repr

/-- Remove every entry recorded under path `p`. -/
def removeAll (p : FsPath) : Store → Store
  | [] => []
  | e :: rest => if e.1 = p then removeAll p rest else e :: removeAll p rest

/-- Node `fs.unlink(path, cb)`: remove the path from the store, or report
`ENOENT` (leaving the store unchanged) when it is absent. -/
def fsUnlink (p : FsPath) (s : Store) : Store × FsResult :=
  match lookupPath p s with
  | none => (s, .enoent)
  | some _ => (removeAll p s, .ok)

/-- How a scheduled callback finished: normally (with console logs), or
by raising an unhandled error that would crash the process.  The source
callbacks route every `fs` error into `console.error`, so the embedding
never constructs `crashed`; the constructor exists so that "never
crashes" is a statement about the code rather than about the type. -/
inductive Outcome
  | completed (logs : List String)
  | crashed (msg : String)
deriving DecidableEq, Repr

/-- True exactly when the callback finished without an unhandled error. -/
def Outcome.isCompleted : Outcome → Bool
  | .completed _ => true
  | .crashed _ => false

/-- The one-shot deletion callback scheduled 24h after a download
(src/index.js lines 96-101): `fs.unlink` the recorded path; the
callback logs an error (`console.error`) or success (`console.log`) and
raises nothing. -/
def oneShotDeletion (p : FsPath) (s : Store) : Store × Outcome :=
  match fsUnlink p s with
  | (s2, .ok) => (s2, .completed ["Deleted file " ++ basename p])
  | (s2, .enoent) =>
    (s2, .completed ["Error deleting file " ++ basename p ++ ": ENOENT"])

/-- The sweep's `fs.unlink` with its callback (src/index.js lines
179-185): errors are logged via `console.error`, success via
`console.log`; nothing is raised. -/
def sweepUnlink (name : FsPath) (s : Store) : Store × Outcome :=
  match fsUnlink name s with
  | (s2, .ok) => (s2, .completed ["Deleted old file " ++ basename name])
  | (s2, .enoent) =>
    (s2, .completed ["Error deleting file " ++ basename name ++ ": ENOENT"])

/-- The sweep's per-file action (src/index.js lines 168-186): stat the
file (a failed stat is logged and the file skipped), compute
`fileAge = now - stats.mtimeMs`, and unlink when `fileAge` strictly
exceeds 24 hours. -/
def sweepStep (now : Int) (name : FsPath) (s : Store) : Store × Outcome :=
  match lookupPath name s with
  | none => (s, .completed ["Error stating file " ++ basename name])
  | some f =>
    if ttlMs < now - f.mtimeMs then sweepUnlink name s
    else (s, .completed [])

/-- One pass of the hourly cleanup job (src/index.js lines 162-189):
`fs.readdir` the downloads directory, then apply the per-file action to
each listed name; one file's outcome never stops the rest of the
pass. -/
def sweepJob (now : Int) (s : Store) : Store :=
  (s.map Prod.fst).foldl (fun st name => (sweepStep now name st).1) s

/-- A job held by the process-wide `node-schedule` registry: the
one-shot deletion of a specific path, or a tick of the hourly sweep. -/
inductive Job
  | oneShot (p : FsPath)
  | sweep
deriving DecidableEq, Repr

/-- Fire one scheduled job against the store at time `now`. -/
def applyJob (now : Int) : Job → Store → Store
  | .oneShot p, s => (oneShotDeletion p s).1
  | .sweep, s => sweepJob now s

/-- Run a list of timed scheduler events in order. -/
def runEvents (events : List (Int × Job)) (s : Store) : Store :=
  events.foldl (fun st e => applyJob e.1 e.2 st) s

/-- The store observed by a check at time `t`: every scheduler event
due at or before `t` has fired, in order. -/
def observeAt (t : Int) (events : List (Int × Job)) (s : Store) : Store :=
  runEvents (events.filter (fun e => decide (e.1 ≤ t))) s

/-- Registering a file at time `T` schedules its one-shot deletion at
`Date.now() + 24 * 60 * 60 * 1000` (src/index.js line 96). -/
def registrationEvent (p : FsPath) (T : Int) : Int × Job :=
  (T + ttlMs, .oneShot p)

/-! ## Store lemmas -/

theorem lookupPath_cons (p : FsPath) (e : FsPath × StoredFile) (rest : Store) :
    lookupPath p (e :: rest) = if e.1 = p then some e.2 else lookupPath p rest :=
  rfl

theorem lookupPath_removeAll_self (p : FsPath) (s : Store) :
    lookupPath p (removeAll p s) = none := by
  induction s with
  | nil => rfl
  | cons e rest ih =>
    by_cases he : e.1 = p
    · simp [removeAll, he, ih]
    · simp [removeAll, he, lookupPath_cons, ih]

theorem lookupPath_removeAll_other (p q : FsPath) (s : Store) (h : q ≠ p) :
    lookupPath q (removeAll p s) = lookupPath q s := by
  induction s with
  | nil => rfl
  | cons e rest ih =>
    by_cases he : e.1 = p
    · have heq : e.1 ≠ q := fun hq => h (hq ▸ he)
      simp [removeAll, he, lookupPath_cons, heq, ih, Ne.symm h]
    · simp [removeAll, he, lookupPath_cons, ih]

theorem lookupPath_removeAll_none (p q : FsPath) (s : Store)
    (h : lookupPath p s = none) :
    lookupPath p (removeAll q s) = none := by
  induction s with
  | nil => rfl
  | cons e rest ih =>
    have he : e.1 ≠ p := by
      intro hp
      simp [lookupPath_cons, hp] at h
    have hr : lookupPath p rest = none := by
      simpa [lookupPath_cons, he] using h
    by_cases hq : e.1 = q
    · simp [removeAll, hq, ih hr]
    · simp [removeAll, hq, lookupPath_cons, he, ih hr]

theorem removeAll_eq_self_of_none (p : FsPath) (s : Store)
    (h : lookupPath p s = none) :
    removeAll p s = s := by
  induction s with
  | nil => rfl
  | cons e rest ih =>
    have he : e.1 ≠ p := by
      intro hp
      simp [lookupPath_cons, hp] at h
    have hr : lookupPath p rest = none := by
      simpa [lookupPath_cons, he] using h
    simp [removeAll, he, ih hr]

/-! ## One-shot deletion lemmas -/

theorem oneShot_lookup_self (p : FsPath) (s : Store) :
    lookupPath p (oneShotDeletion p s).1 = none := by
  unfold oneShotDeletion fsUnlink
  cases h : lookupPath p s with
  | none => simpa using h
  | some f => simpa using lookupPath_removeAll_self p s

theorem oneShot_lookup_other (p q : FsPath) (s : Store) (h : q ≠ p) :
    lookupPath q (oneShotDeletion p s).1 = lookupPath q s := by
  unfold oneShotDeletion fsUnlink
  cases hp : lookupPath p s with
  | none => simp
  | some f => simpa using lookupPath_removeAll_other p q s h

theorem oneShot_completed (p : FsPath) (s : Store) :
    ((oneShotDeletion p s).2).isCompleted = true := by
  unfold oneShotDeletion fsUnlink
  cases hp : lookupPath p s <;> simp [Outcome.isCompleted]

theorem sweepStep_completed (now : Int) (name : FsPath) (s : Store) :
    ((sweepStep now name s).2).isCompleted = true := by
  unfold sweepStep sweepUnlink fsUnlink
  cases h : lookupPath name s with
  | none => simp [Outcome.isCompleted]
  | some f =>
    by_cases hc : ttlMs < now - f.mtimeMs <;>
      simp [hc, h, Outcome.isCompleted]

theorem oneShot_fst_none (p : FsPath) (s : Store)
    (h : lookupPath p s = none) : (oneShotDeletion p s).1 = s := by
  simp [oneShotDeletion, fsUnlink, h]

theorem oneShot_fst_some (p : FsPath) (s : Store) (f : StoredFile)
    (h : lookupPath p s = some f) : (oneShotDeletion p s).1 = removeAll p s := by
  simp [oneShotDeletion, fsUnlink, h]

theorem sweepStep_fst_none (now : Int) (p : FsPath) (s : Store)
    (h : lookupPath p s = none) : (sweepStep now p s).1 = s := by
  simp [sweepStep, h]

theorem sweepStep_fst_old (now : Int) (p : FsPath) (s : Store) (f : StoredFile)
    (h : lookupPath p s = some f) (hage : ttlMs < now - f.mtimeMs) :
    (sweepStep now p s).1 = removeAll p s := by
  simp [sweepStep, h, hage, sweepUnlink, fsUnlink]

theorem sweepStep_fst_young (now : Int) (p : FsPath) (s : Store) (f : StoredFile)
    (h : lookupPath p s = some f) (hage : ¬ ttlMs < now - f.mtimeMs) :
    (sweepStep now p s).1 = s := by
  simp [sweepStep, h, hage]

/-! ## Sample data used by the concrete witnesses -/

/-- Absolute segment list of the downloads directory. -/
def sampleRoot : FsPath := ["srv", "downloads"]

/-- A ten-byte sample video file. -/
def sampleFile : StoredFile :=
  { content := [10, 11, 12, 13, 14, 15, 16, 17, 18, 19], mtimeMs := 0 }

/-- A second sample file, for frame conditions. -/
def sampleOther : StoredFile := { content := [1, 2, 3], mtimeMs := 1000 }

/-- A store holding only `clip.mp4`. -/
def sampleStore : Store := [(["srv", "downloads", "clip.mp4"], sampleFile)]

/-- A store holding `clip.mp4` and `other.mp4`. -/
def sampleStore2 : Store :=
  [(["srv", "downloads", "clip.mp4"], sampleFile),
   (["srv", "downloads", "other.mp4"], sampleOther)]

/-! ## Claim theorems -/

/-- C2: for every file in the File Store, a `/watch/:filename` request
with no range header answers 200 with `Content-Length` equal to the
file size, `Content-Type` `video/mp4`, a body of exactly the file's
bytes, and no change to the store. -/
theorem watch_full_200 (store : Store) (root : FsPath) (filename : String)
    (f : StoredFile)
    (hf : lookupPath (pathJoin root filename) store = some f) :
    expressWatch store root filename none =
      ({ status := 200
         contentLength := some (f.content.length : Int)
         contentType := some "video/mp4"
         body := .bytes f.content }, store) := by
  simp [expressWatch, watchHandler, hf]

/-- Witness for C2 on a concrete ten-byte file. -/
theorem watch_full_200_witness :
    expressWatch sampleStore sampleRoot "clip.mp4" none =
      ({ status := 200
         contentLength := some (sampleFile.content.length : Int)
         contentType := some "video/mp4"
         body := .bytes sampleFile.content }, sampleStore) :=
  watch_full_200 sampleStore sampleRoot "clip.mp4" sampleFile (by decide)

/-- C3: for every filename whose derived path is not in the File
Store, `/watch/:filename` answers 404 with body `Video not found` and
leaves the store unchanged, with or without a range header. -/
theorem watch_missing_404 (store : Store) (root : FsPath) (filename : String)
    (rangeHeader : Option String)
    (hf : lookupPath (pathJoin root filename) store = none) :
    expressWatch store root filename rangeHeader =
      ({ status := 404, body := .text "Video not found" }, store) := by
  simp [expressWatch, watchHandler, hf]

/-- Witness for C3: a missing file, requested with a range header. -/
theorem watch_missing_404_witness :
    expressWatch sampleStore sampleRoot "missing.mp4" (some "bytes=0-1") =
      ({ status := 404, body := .text "Video not found" }, sampleStore) :=
  watch_missing_404 sampleStore sampleRoot "missing.mp4" (some "bytes=0-1")
    (by decide)

/-- C4 (failing input): the handler derives the path with a bare
`path.join(downloadsDir, filename)` and no traversal guard, so the
filename `../secret` (reachable as the route param `..%2Fsecret`)
resolves outside the downloads directory. -/
theorem pathJoin_traversal_escape :
    pathJoin sampleRoot "../secret" = ["srv", "secret"] ∧
    strictlyInside sampleRoot (pathJoin sampleRoot "../secret") = false := by
  decide

/-- C5: deleting an already-deleted or never-existing path — through
the one-shot deletion callback or through the sweep's unlink callback —
returns normally with a `console.error` log, leaves the store
unchanged, and never raises an unhandled error. -/
theorem unlink_missing_logged (p : FsPath) (s : Store)
    (h : lookupPath p s = none) :
    oneShotDeletion p s =
      (s, .completed ["Error deleting file " ++ basename p ++ ": ENOENT"]) ∧
    sweepUnlink p s =
      (s, .completed ["Error deleting file " ++ basename p ++ ": ENOENT"]) ∧
    ((oneShotDeletion p s).2).isCompleted = true ∧
    ((sweepUnlink p s).2).isCompleted = true := by
  refine ⟨?_, ?_, ?_, ?_⟩ <;>
    simp [oneShotDeletion, sweepUnlink, fsUnlink, h, Outcome.isCompleted]

/-- Witness for C5: deleting a path that is not in the store. -/
theorem unlink_missing_logged_witness :
    oneShotDeletion ["srv", "downloads", "gone.mp4"] sampleStore =
      (sampleStore, .completed ["Error deleting file gone.mp4: ENOENT"]) ∧
    sweepUnlink ["srv", "downloads", "gone.mp4"] sampleStore =
      (sampleStore, .completed ["Error deleting file gone.mp4: ENOENT"]) ∧
    ((oneShotDeletion ["srv", "downloads", "gone.mp4"] sampleStore).2).isCompleted
      = true ∧
    ((sweepUnlink ["srv", "downloads", "gone.mp4"] sampleStore).2).isCompleted
      = true := by
  have h := unlink_missing_logged ["srv", "downloads", "gone.mp4"] sampleStore
    (by decide)
  simpa [basename] using h

/-- C10: the one-shot deletion removes exactly the path it was bound to
at registration time: that path is absent afterwards and every other
path maps to the same file as before. -/
theorem oneShot_frame (p : FsPath) (s : Store) :
    lookupPath p (oneShotDeletion p s).1 = none ∧
    ∀ q, q ≠ p → lookupPath q (oneShotDeletion p s).1 = lookupPath q s :=
  ⟨oneShot_lookup_self p s, fun q hq => oneShot_lookup_other p q s hq⟩

/-- Witness for C10 on a two-file store: `clip.mp4` is removed,
`other.mp4` is untouched. -/
theorem oneShot_frame_witness :
    lookupPath ["srv", "downloads", "clip.mp4"]
      (oneShotDeletion ["srv", "downloads", "clip.mp4"] sampleStore2).1 = none ∧
    lookupPath ["srv", "downloads", "other.mp4"]
        (oneShotDeletion ["srv", "downloads", "clip.mp4"] sampleStore2).1 =
      lookupPath ["srv", "downloads", "other.mp4"] sampleStore2 :=
  ⟨(oneShot_frame ["srv", "downloads", "clip.mp4"] sampleStore2).1,
   (oneShot_frame ["srv", "downloads", "clip.mp4"] sampleStore2).2
     ["srv", "downloads", "other.mp4"] (by decide)⟩

/-- C7: the one-shot deletion and the sweep's per-file trigger for the
same path, fired in either order, end in the same store — the path
absent, every other path as it was — and every callback in both
orderings finishes without an unhandled error. -/
theorem oneShot_sweep_commute (now : Int) (p : FsPath) (s : Store) :
    (sweepStep now p (oneShotDeletion p s).1).1 =
      (oneShotDeletion p (sweepStep now p s).1).1 ∧
    lookupPath p (sweepStep now p (oneShotDeletion p s).1).1 = none ∧
    (∀ q, q ≠ p →
      lookupPath q (sweepStep now p (oneShotDeletion p s).1).1 = lookupPath q s) ∧
    ((oneShotDeletion p s).2).isCompleted = true ∧
    ((sweepStep now p (oneShotDeletion p s).1).2).isCompleted = true ∧
    ((sweepStep now p s).2).isCompleted = true ∧
    ((oneShotDeletion p (sweepStep now p s).1).2).isCompleted = true := by
  have hAB : (sweepStep now p (oneShotDeletion p s).1).1 =
      (oneShotDeletion p (sweepStep now p s).1).1 ∧
      lookupPath p (sweepStep now p (oneShotDeletion p s).1).1 = none ∧
      (∀ q, q ≠ p →
        lookupPath q (sweepStep now p (oneShotDeletion p s).1).1 =
          lookupPath q s) := by
    cases hl : lookupPath p s with
    | none =>
      rw [oneShot_fst_none p s hl, sweepStep_fst_none now p s hl,
        oneShot_fst_none p s hl]
      exact ⟨rfl, hl, fun q _ => rfl⟩
    | some f =>
      have h1 : (oneShotDeletion p s).1 = removeAll p s :=
        oneShot_fst_some p s f hl
      have h2 : lookupPath p (removeAll p s) = none :=
        lookupPath_removeAll_self p s
      rw [h1, sweepStep_fst_none now p (removeAll p s) h2]
      by_cases hage : ttlMs < now - f.mtimeMs
      · rw [sweepStep_fst_old now p s f hl hage,
          oneShot_fst_none p (removeAll p s) h2]
        exact ⟨rfl, h2, fun q hq => lookupPath_removeAll_other p q s hq⟩
      · rw [sweepStep_fst_young now p s f hl hage, oneShot_fst_some p s f hl]
        exact ⟨rfl, h2, fun q hq => lookupPath_removeAll_other p q s hq⟩
  exact ⟨hAB.1, hAB.2.1, hAB.2.2, oneShot_completed p s,
    sweepStep_completed now p (oneShotDeletion p s).1,
    sweepStep_completed now p s,
    oneShot_completed p (sweepStep now p s).1⟩

/-- Witness for C7 at a concrete file and time (one minute past the
TTL, so the sweep trigger would also delete). -/
theorem oneShot_sweep_commute_witness :
    (sweepStep 86460000 ["srv", "downloads", "clip.mp4"]
        (oneShotDeletion ["srv", "downloads", "clip.mp4"] sampleStore2).1).1 =
      (oneShotDeletion ["srv", "downloads", "clip.mp4"]
        (sweepStep 86460000 ["srv", "downloads", "clip.mp4"] sampleStore2).1).1 ∧
    lookupPath ["srv", "downloads", "clip.mp4"]
      (sweepStep 86460000 ["srv", "downloads", "clip.mp4"]
        (oneShotDeletion ["srv", "downloads", "clip.mp4"] sampleStore2).1).1
      = none ∧
    lookupPath ["srv", "downloads", "other.mp4"]
        (sweepStep 86460000 ["srv", "downloads", "clip.mp4"]
          (oneShotDeletion ["srv", "downloads", "clip.mp4"] sampleStore2).1).1 =
      lookupPath ["srv", "downloads", "other.mp4"] sampleStore2 := by
  have h := oneShot_sweep_commute 86460000 ["srv", "downloads", "clip.mp4"]
    sampleStore2
  exact ⟨h.1, h.2.1, h.2.2.1 ["srv", "downloads", "other.mp4"] (by decide)⟩

/-! ## Sweep and event-run lemmas -/

theorem sweepStep_preserves_none (now : Int) (name p : FsPath) (s : Store)
    (h : lookupPath p s = none) :
    lookupPath p (sweepStep now name s).1 = none := by
  cases hn : lookupPath name s with
  | none => rw [sweepStep_fst_none now name s hn]; exact h
  | some f =>
    by_cases hage : ttlMs < now - f.mtimeMs
    · rw [sweepStep_fst_old now name s f hn hage]
      exact lookupPath_removeAll_none p name s h
    · rw [sweepStep_fst_young now name s f hn hage]; exact h

theorem sweepStep_lookup_other (now : Int) (name p : FsPath) (s : Store)
    (h : name ≠ p) :
    lookupPath p (sweepStep now name s).1 = lookupPath p s := by
  cases hn : lookupPath name s with
  | none => rw [sweepStep_fst_none now name s hn]
  | some f =>
    by_cases hage : ttlMs < now - f.mtimeMs
    · rw [sweepStep_fst_old now name s f hn hage]
      exact lookupPath_removeAll_other name p s (Ne.symm h)
    · rw [sweepStep_fst_young now name s f hn hage]

theorem sweepFold_preserves_none (now : Int) (names : List FsPath) (p : FsPath) :
    ∀ s : Store, lookupPath p s = none →
      lookupPath p
        (names.foldl (fun st name => (sweepStep now name st).1) s) = none := by
  induction names with
  | nil => intro s h; exact h
  | cons n rest ih =>
    intro s h
    rw [List.foldl_cons]
    exact ih _ (sweepStep_preserves_none now n p s h)

theorem sweepFold_frame (now : Int) (names : List FsPath) (p : FsPath)
    (h : p ∉ names) :
    ∀ s : Store,
      lookupPath p (names.foldl (fun st name => (sweepStep now name st).1) s) =
        lookupPath p s := by
  induction names with
  | nil => intro s; rfl
  | cons n rest ih =>
    intro s
    have hn : n ≠ p := fun he => h (he ▸ List.mem_cons_self n rest)
    have hp : p ∉ rest := fun hm => h (List.mem_cons_of_mem n hm)
    rw [List.foldl_cons, ih hp, sweepStep_lookup_other now n p s hn]

theorem sweepJob_preserves_none (now : Int) (p : FsPath) (s : Store)
    (h : lookupPath p s = none) :
    lookupPath p (sweepJob now s) = none := by
  unfold sweepJob
  exact sweepFold_preserves_none now _ p s h

theorem oneShot_preserves_none (q p : FsPath) (s : Store)
    (h : lookupPath p s = none) :
    lookupPath p (oneShotDeletion q s).1 = none := by
  cases hq : lookupPath q s with
  | none => rw [oneShot_fst_none q s hq]; exact h
  | some f =>
    rw [oneShot_fst_some q s f hq]
    exact lookupPath_removeAll_none p q s h

theorem applyJob_preserves_none (now : Int) (j : Job) (p : FsPath) (s : Store)
    (h : lookupPath p s = none) :
    lookupPath p (applyJob now j s) = none := by
  cases j with
  | oneShot q => exact oneShot_preserves_none q p s h
  | sweep => exact sweepJob_preserves_none now p s h

theorem runEvents_preserves_none (events : List (Int × Job)) (p : FsPath) :
    ∀ s : Store, lookupPath p s = none →
      lookupPath p (runEvents events s) = none := by
  induction events with
  | nil => intro s h; exact h
  | cons e rest ih =>
    intro s h
    unfold runEvents
    rw [List.foldl_cons]
    exact ih _ (applyJob_preserves_none e.1 e.2 p s h)

theorem mem_keys_of_lookup (p : FsPath) (s : Store) (f : StoredFile)
    (h : lookupPath p s = some f) : p ∈ s.map Prod.fst := by
  induction s with
  | nil => simp [lookupPath] at h
  | cons e rest ih =>
    rw [List.map_cons]
    by_cases he : e.1 = p
    · exact he ▸ List.mem_cons_self e.1 _
    · have hr : lookupPath p rest = some f := by
        simpa [lookupPath_cons, he] using h
      exact List.mem_cons_of_mem _ (ih hr)

/-- C6: a file registered at time `T` (which schedules its one-shot
deletion at `T + 24h`) is absent from the store at every check
performed at or after `T + 24h + 1h` (one sweep cadence past the TTL),
whatever other scheduler jobs fire, with no client action involved. -/
theorem file_absent_after_ttl (events : List (Int × Job)) (s : Store)
    (p : FsPath) (T t : Int)
    (hev : registrationEvent p T ∈ events)
    (ht : T + ttlMs + hourMs ≤ t) :
    lookupPath p (observeAt t events s) = none := by
  have hT : T + ttlMs ≤ t := by
    have h0 : (0 : Int) < hourMs := by norm_num [hourMs]
    linarith
  have hin : registrationEvent p T ∈
      events.filter (fun e => decide (e.1 ≤ t)) :=
    List.mem_filter.mpr ⟨hev, by simpa [registrationEvent] using hT⟩
  obtain ⟨l1, l2, hsplit⟩ := List.append_of_mem hin
  unfold observeAt runEvents
  rw [hsplit, List.foldl_append, List.foldl_cons]
  refine runEvents_preserves_none l2 p _ ?_
  simp only [registrationEvent, applyJob]
  exact oneShot_lookup_self p _

/-- Witness for C6: one registration at `T = 0`, observed at
`25h` (in milliseconds). -/
theorem file_absent_after_ttl_witness :
    lookupPath ["srv", "downloads", "clip.mp4"]
      (observeAt 90000000
        [registrationEvent ["srv", "downloads", "clip.mp4"] 0] sampleStore2)
      = none :=
  file_absent_after_ttl
    [registrationEvent ["srv", "downloads", "clip.mp4"] 0] sampleStore2
    ["srv", "downloads", "clip.mp4"] 0 90000000
    (by decide) (by norm_num [ttlMs, hourMs])

/-- C9: one pass of the hourly sweep deletes a stored file exactly when
`now - mtimeMs` strictly exceeds 24 hours; a file aged exactly 24 hours
or less is left in place unchanged. -/
theorem sweep_deletes_iff_expired (now : Int) (s : Store) (p : FsPath)
    (f : StoredFile) (hnd : (s.map Prod.fst).Nodup)
    (hf : lookupPath p s = some f) :
    lookupPath p (sweepJob now s) =
      if ttlMs < now - f.mtimeMs then none else some f := by
  obtain ⟨l1, l2, hsplit⟩ := List.append_of_mem (mem_keys_of_lookup p s f hf)
  have hnd' : (l1 ++ p :: l2).Nodup := hsplit ▸ hnd
  have hp2 : p ∉ l2 := (List.nodup_cons.mp (List.Nodup.of_append_right hnd')).1
  have hp1 : p ∉ l1 := fun hm =>
    (List.disjoint_of_nodup_append hnd') hm (List.mem_cons_self p l2)
  unfold sweepJob
  rw [hsplit, List.foldl_append, List.foldl_cons]
  have hmid :
      lookupPath p
        (List.foldl (fun st name => (sweepStep now name st).1) s l1) = some f := by
    rw [sweepFold_frame now l1 p hp1 s]; exact hf
  set s1 := List.foldl (fun st name => (sweepStep now name st).1) s l1 with hs1
  by_cases hage : ttlMs < now - f.mtimeMs
  · rw [if_pos hage]
    refine sweepFold_preserves_none now l2 p _ ?_
    rw [sweepStep_fst_old now p s1 f hmid hage]
    exact lookupPath_removeAll_self p s1
  · rw [if_neg hage, sweepFold_frame now l2 p hp2 _,
      sweepStep_fst_young now p s1 f hmid hage]
    exact hmid

/-- Witness for C9: a sweep pass one millisecond past the TTL deletes
the file; the same store checked at exactly the TTL keeps it. -/
theorem sweep_deletes_iff_expired_witness :
    lookupPath ["srv", "downloads", "clip.mp4"]
        (sweepJob 86400001 sampleStore2) =
      (if ttlMs < (86400001 : Int) - sampleFile.mtimeMs then none
       else some sampleFile) :=
  sweep_deletes_iff_expired 86400001 sampleStore2
    ["srv", "downloads", "clip.mp4"] sampleFile (by decide) (by decide)

/-! ## Range-header parsing lemmas -/

theorem isPrefixOf_self_append (l₁ l₂ : List Char) :
    l₁.isPrefixOf (l₁ ++ l₂) = true := by
  induction l₁ with
  | nil => cases l₂ <;> rfl
  | cons c rest ih => simp [List.isPrefixOf, ih]

theorem removeFirst_append (pat rest : List Char) :
    removeFirst pat (pat ++ rest) = rest := by
  cases pat with
  | nil =>
    cases rest with
    | nil => rfl
    | cons c t => simp [removeFirst, List.isPrefixOf]
  | cons x xs =>
    have hpre : (x :: xs).isPrefixOf ((x :: xs) ++ rest) = true :=
      isPrefixOf_self_append (x :: xs) rest
    show removeFirst (x :: xs) (x :: (xs ++ rest)) = rest
    rw [removeFirst]
    simp only [List.cons_append] at hpre
    rw [if_pos hpre]
    simp [List.drop_succ_cons, List.drop_left]

theorem splitOnChar_ne_nil (sep : Char) (l : List Char) :
    splitOnChar sep l ≠ [] := by
  cases l with
  | nil => simp [splitOnChar]
  | cons c rest =>
    rw [splitOnChar]
    cases h : splitOnChar sep rest with
    | nil => simp
    | cons hh tt => by_cases hc : c = sep <;> simp [hc]

theorem splitOnChar_no_sep (sep : Char) (l : List Char) (h : sep ∉ l) :
    splitOnChar sep l = [l] := by
  induction l with
  | nil => rfl
  | cons c rest ih =>
    rw [List.mem_cons] at h
    push_neg at h
    have hc : ¬ c = sep := fun he => h.1 he.symm
    rw [splitOnChar, ih h.2]
    simp [hc]

theorem splitOnChar_append (sep : Char) (xs ys : List Char) (h : sep ∉ xs) :
    splitOnChar sep (xs ++ sep :: ys) = xs :: splitOnChar sep ys := by
  induction xs with
  | nil =>
    show splitOnChar sep (sep :: ys) = [] :: splitOnChar sep ys
    rw [splitOnChar]
    cases hys : splitOnChar sep ys with
    | nil => exact absurd hys (splitOnChar_ne_nil sep ys)
    | cons hh tt => simp
  | cons x xs ih =>
    rw [List.mem_cons] at h
    push_neg at h
    have hx : ¬ x = sep := fun he => h.1 he.symm
    show splitOnChar sep (x :: (xs ++ sep :: ys)) =
      (x :: xs) :: splitOnChar sep ys
    rw [splitOnChar, ih h.2]
    simp [hx]

theorem parts_eq_pair (sa sb : List Char) (hdr : String)
    (hh : hdr.toList = "bytes=".toList ++ (sa ++ '-' :: sb))
    (hsa : '-' ∉ sa) (hsb : '-' ∉ sb) :
    splitOnChar '-' (removeFirst "bytes=".toList hdr.toList) = [sa, sb] := by
  rw [hh, removeFirst_append, splitOnChar_append '-' sa sb hsa,
    splitOnChar_no_sep '-' sb hsb]

theorem parts_eq_open (sa : List Char) (hdr : String)
    (hh : hdr.toList = "bytes=".toList ++ (sa ++ ['-']))
    (hsa : '-' ∉ sa) :
    splitOnChar '-' (removeFirst "bytes=".toList hdr.toList) = [sa, []] := by
  rw [hh, removeFirst_append]
  show splitOnChar '-' (sa ++ '-' :: []) = [sa, []]
  rw [splitOnChar_append '-' sa [] hsa]
  rfl

theorem watchRangeBranch_parsed (content : List Nat) (fileSize : Int)
    (range : String) (a b : Int) (sa sb : List Char)
    (hparts :
      splitOnChar '-' (removeFirst "bytes=".toList range.toList) = [sa, sb])
    (hsa : jsParseInt sa = some a)
    (hstop : (if sb.isEmpty then some (fileSize - 1) else jsParseInt sb)
      = some b)
    (ha : 0 ≤ a) (hb : 0 ≤ b) (hab : a ≤ b) :
    watchRangeBranch content fileSize range =
      .ok { status := 206
            contentLength := some (b - a + 1)
            contentRange := some (a, b, fileSize)
            acceptRanges := some "bytes"
            contentType := some "video/mp4"
            body := .bytes ((content.drop a.toNat).take (b - a + 1).toNat) } := by
  have h1 : ¬ a < 0 := not_lt.mpr ha
  have h2 : ¬ b < 0 := not_lt.mpr hb
  have h3 : ¬ b < a := not_lt.mpr hab
  simp only [watchRangeBranch, hparts, List.headD_cons, List.get?]
  rw [hsa, hstop]
  simp [createReadStreamRange, h1, h2, h3]

/-- C1: for a stored file of size `S` and a range header `bytes=a-b`
with `0 ≤ a ≤ b ≤ S-1` — or `bytes=a-`, in which case the end is taken
to be `S-1` — `/watch/:filename` answers 206 with
`Content-Length = b-a+1`, `Content-Range` `bytes a-b/S`,
`Accept-Ranges` `bytes`, `Content-Type` `video/mp4`, and a body that is
exactly the file's bytes in `[a,b]` inclusive.  `sa` and `sb` are the
decimal texts denoting `a` and `b` inside the header. -/
theorem watch_range_206 (store : Store) (root : FsPath) (filename : String)
    (f : StoredFile) (a b : Nat) (sa sb : List Char) (hdr : String)
    (hf : lookupPath (pathJoin root filename) store = some f)
    (hab : a ≤ b) (hb : b < f.content.length)
    (hsa : jsParseInt sa = some (a : Int)) (hsa' : '-' ∉ sa)
    (hcase :
      (hdr.toList = "bytes=".toList ++ (sa ++ '-' :: sb) ∧
        jsParseInt sb = some (b : Int) ∧ '-' ∉ sb ∧ sb ≠ []) ∨
      (hdr.toList = "bytes=".toList ++ (sa ++ ['-']) ∧ sb = [] ∧
        b = f.content.length - 1)) :
    ∃ body : List Nat,
      expressWatch store root filename (some hdr) =
        ({ status := 206
           contentLength := some ((b : Int) - (a : Int) + 1)
           contentRange := some ((a : Int), (b : Int), (f.content.length : Int))
           acceptRanges := some "bytes"
           contentType := some "video/mp4"
           body := .bytes body }, store) ∧
      body.length = b - a + 1 ∧
      ∀ i, i < b - a + 1 → body[i]? = f.content[a + i]? := by
  have ha' : (0 : Int) ≤ (a : Int) := Int.natCast_nonneg a
  have hb' : (0 : Int) ≤ (b : Int) := Int.natCast_nonneg b
  have hab' : (a : Int) ≤ (b : Int) := by exact_mod_cast hab
  have hbr : watchRangeBranch f.content (f.content.length : Int) hdr =
      .ok { status := 206
            contentLength := some ((b : Int) - (a : Int) + 1)
            contentRange := some ((a : Int), (b : Int), (f.content.length : Int))
            acceptRanges := some "bytes"
            contentType := some "video/mp4"
            body := .bytes
              ((f.content.drop (a : Int).toNat).take
                ((b : Int) - (a : Int) + 1).toNat) } := by
    rcases hcase with ⟨hh, hpb, hsb', hne⟩ | ⟨hh, hsbnil, hbend⟩
    · have hparts := parts_eq_pair sa sb hdr hh hsa' hsb'
      have hempty : sb.isEmpty = false := by
        cases sb with
        | nil => exact absurd rfl hne
        | cons c t => rfl
      exact watchRangeBranch_parsed f.content (f.content.length : Int) hdr
        (a : Int) (b : Int) sa sb hparts hsa (by rw [hempty]; simpa using hpb)
        ha' hb' hab'
    · subst hsbnil
      have hparts := parts_eq_open sa hdr hh hsa'
      have hend : (f.content.length : Int) - 1 = (b : Int) := by
        have hlen : 1 ≤ f.content.length := Nat.lt_of_le_of_lt (Nat.zero_le b) hb
        omega
      exact watchRangeBranch_parsed f.content (f.content.length : Int) hdr
        (a : Int) (b : Int) sa [] hparts hsa (by simp [hend]) ha' hb' hab'
  have hbody :
      ((f.content.drop (a : Int).toNat).take ((b : Int) - (a : Int) + 1).toNat)
        = (f.content.drop a).take (b - a + 1) := by
    have h1 : ((a : Int)).toNat = a := by omega
    have h2 : ((b : Int) - (a : Int) + 1).toNat = b - a + 1 := by omega
    rw [h1, h2]
  refine ⟨(f.content.drop a).take (b - a + 1), ?_, ?_, ?_⟩
  · simp only [expressWatch, watchHandler, hf]
    rw [hbr, hbody]
  · rw [List.length_take, List.length_drop]
    omega
  · intro i hi
    rw [List.getElem?_take_of_lt hi, List.getElem?_drop]

/-- Witness for C1: `bytes=2-5` against the ten-byte sample file. -/
theorem watch_range_206_witness :
    ∃ body : List Nat,
      expressWatch sampleStore sampleRoot "clip.mp4" (some "bytes=2-5") =
        ({ status := 206
           contentLength := some ((5 : Int) - (2 : Int) + 1)
           contentRange := some ((2 : Int), (5 : Int),
             (sampleFile.content.length : Int))
           acceptRanges := some "bytes"
           contentType := some "video/mp4"
           body := .bytes body }, sampleStore) ∧
      body.length = 5 - 2 + 1 ∧
      ∀ i, i < 5 - 2 + 1 → body[i]? = sampleFile.content[2 + i]? :=
  watch_range_206 sampleStore sampleRoot "clip.mp4" sampleFile 2 5
    ['2'] ['5'] "bytes=2-5" (by decide) (by decide) (by decide) (by decide)
    (by decide) (Or.inl (by decide))

/-- Every successful result of the range branch carries status 206. -/
theorem watchRangeBranch_ok_status (content : List Nat) (fileSize : Int)
    (range : String) (resp : HttpResponse)
    (h : watchRangeBranch content fileSize range = .ok resp) :
    resp.status = 206 := by
  simp only [watchRangeBranch] at h
  split at h
  · exact absurd h (by simp)
  · rw [Except.ok.injEq] at h
    rw [← h]

/-- Every handler result is a 404, a 200, or a 206. -/
theorem watchHandler_ok_status (store : Store) (root : FsPath)
    (filename : String) (rangeHeader : Option String) (r : HttpResponse)
    (st : Store)
    (h : watchHandler store root filename rangeHeader = (.ok r, st)) :
    r.status = 404 ∨ r.status = 200 ∨ r.status = 206 := by
  simp only [watchHandler] at h
  cases hl : lookupPath (pathJoin root filename) store with
  | none =>
    rw [hl] at h
    simp only [Prod.mk.injEq, Except.ok.injEq] at h
    left
    rw [← h.1]
  | some f =>
    rw [hl] at h
    cases rangeHeader with
    | none =>
      simp only [Prod.mk.injEq, Except.ok.injEq] at h
      right; left
      rw [← h.1]
    | some range =>
      simp only [Prod.mk.injEq] at h
      right; right
      exact watchRangeBranch_ok_status f.content _ range r h.1

/-- C8 (amended): the responder is total — every request, malformed
range headers included, gets exactly one terminating response, and its
status is 404, 200, 206 or 500 (the 500 arising when the thrown
`ERR_OUT_OF_RANGE` of the stream constructor reaches the framework's
default error handler). -/
theorem watch_status_classified (store : Store) (root : FsPath)
    (filename : String) (rangeHeader : Option String) :
    (expressWatch store root filename rangeHeader).1.status = 404 ∨
    (expressWatch store root filename rangeHeader).1.status = 200 ∨
    (expressWatch store root filename rangeHeader).1.status = 206 ∨
    (expressWatch store root filename rangeHeader).1.status = 500 := by
  rcases hw : watchHandler store root filename rangeHeader with ⟨res, st⟩
  cases res with
  | error e => simp [expressWatch, hw]
  | ok r =>
    have hs := watchHandler_ok_status store root filename rangeHeader r st hw
    have : (expressWatch store root filename rangeHeader).1 = r := by
      simp [expressWatch, hw]
    rw [this]
    rcases hs with h | h | h
    · exact Or.inl h
    · exact Or.inr (Or.inl h)
    · exact Or.inr (Or.inr (Or.inl h))

/-- C8 counterexample: on an existing file, the malformed header
`bytes=-500` parses to a `NaN` start, the stream constructor throws,
and the client observes a 500 — not a 404, not a 200/206, and a
response rather than a connection drop. -/
theorem watch_malformed_500 :
    (expressWatch sampleStore sampleRoot "clip.mp4"
      (some "bytes=-500")).1.status = 500 ∧
    ¬ ((expressWatch sampleStore sampleRoot "clip.mp4"
          (some "bytes=-500")).1.status = 404 ∨
       (expressWatch sampleStore sampleRoot "clip.mp4"
          (some "bytes=-500")).1.status = 200 ∨
       (expressWatch sampleStore sampleRoot "clip.mp4"
          (some "bytes=-500")).1.status = 206) := by
  decide

end TeraWeB
